import Mathlib

/-!
Formal model of the AETHER_VERITAS retrieval layer.

The development embeds the two Python modules `src/logic/resolver.py` and
`src/logic/indexer.py` as pure Lean functions.  Python dictionaries holding
chunk metadata become the record `Meta`; a key that a given producer leaves
absent is modelled by the empty string (for string-valued keys) or `none`
(for the optional `inheritsFrom` key), and each such filler is noted where
it occurs.  Embedding vectors are lists of real numbers; the external
embedding service is a function parameter `embed : String -> Vec`, and the
generative synonym service of the resolver module is a function parameter
`expand`.  The persisted store (metadata.json / vectors.npy) is the record
`FS`, where `none` models an absent file.
-/

namespace Aether

/-- Embedding vectors, as produced by the embedding service. -/
abbrev Vec := List ℝ

/-- Chunk metadata dictionary.  `resolver.chunk_xml` populates
`region, name, tag, inheritsFrom, raw_xml`; `indexer.chunk_xml` populates
`region, name, synonyms, raw_xml`.  Absent string keys are modelled as `""`. -/
structure Meta where
  region : String
  name : String
  tag : String
  inheritsFrom : Option String
  synonyms : String
  raw_xml : String
deriving DecidableEq, Repr

/-- One indexed unit: the dictionaries appended by `chunk_xml`. -/
structure Chunk where
  id : String
  text : String
  metadata : Meta
deriving DecidableEq, Repr

/-- XML element: tag, attribute list, text content, children.
Models the lxml element tree of a parsed manuscript. -/
inductive Xml where
  | elem (tag : String) (attrs : List (String × String)) (txt : String) (children : List Xml)
deriving Repr

/-- Tag of an element (`node.tag`). -/
def Xml.tag : Xml → String
  | .elem t _ _ _ => t

/-- Attribute lookup (`node.get(key)` with no default). -/
def Xml.attr : Xml → String → Option String
  | .elem _ attrs _ _, k => (attrs.find? (fun p => p.1 == k)).map (·.2)

/-- Serialized attribute list, part of the model of `ET.tostring`. -/
def attrsString : List (String × String) → String
  | [] => ""
  | (k, v) :: rest => " " ++ k ++ "=\"" ++ v ++ "\"" ++ attrsString rest

mutual
/-- Model of `ET.tostring(node)`: the serialized original markup of a node. -/
def serialize : Xml → String
  | .elem t attrs txt cs => "<" ++ t ++ attrsString attrs ++ ">" ++ txt ++ serializeList cs ++ "</" ++ t ++ ">"

/-- Serialization of a child list, in document order. -/
def serializeList : List Xml → String
  | [] => ""
  | c :: cs => serialize c ++ serializeList cs
end

mutual
/-- Model of `tree.xpath(".//T1 | .//T2 | ...")`: every element of the tree
whose tag is in `tags`, in document order (preorder). -/
def collectTagged (tags : List String) : Xml → List Xml
  | .elem t attrs txt cs =>
      (if t ∈ tags then [Xml.elem t attrs txt cs] else []) ++ collectTaggedList tags cs

/-- Collection over a child list, in document order. -/
def collectTaggedList (tags : List String) : List Xml → List Xml
  | [] => []
  | c :: cs => collectTagged tags c ++ collectTaggedList tags cs
end

/-- Python `dict.get` on a literal string-keyed dictionary. -/
def dictGet (d : List (String × String)) (k : String) : Option String :=
  (d.find? (fun p => p.1 == k)).map (·.2)

/-- Index of the first element satisfying `p` (the scan loop of
`re_index_node`). -/
def firstIdxWhere (p : α → Bool) : List α → Option Nat
  | [] => none
  | x :: xs => if p x then some 0 else (firstIdxWhere p xs).map (· + 1)

/-- Model of `np.argmax` starting from a current best index / best value:
a later element replaces the best only if strictly greater, so the first
occurrence of the maximum wins. -/
noncomputable def argmaxFrom : Nat → ℝ → Nat → List ℝ → Nat
  | bi, _, _, [] => bi
  | bi, bv, i, x :: xs => if bv < x then argmaxFrom i x (i + 1) xs else argmaxFrom bi bv (i + 1) xs

/-- Model of `np.argmax` on a similarity array (`0` on the empty array,
which `np.argmax` rejects at runtime). -/
noncomputable def argmax : List ℝ → Nat
  | [] => 0
  | x :: xs => argmaxFrom 0 x 1 xs

/-- Running maximum, used to reason about `argmax`. -/
noncomputable def maxFrom : ℝ → List ℝ → ℝ
  | bv, [] => bv
  | bv, x :: xs => if bv < x then maxFrom x xs else maxFrom bv xs

/-- Dot product of two vectors (`np.dot`). -/
def dot (v w : List ℝ) : ℝ := (List.zipWith (· * ·) v w).sum

/-- Euclidean norm (`np.linalg.norm`). -/
noncomputable def vnorm (v : List ℝ) : ℝ := Real.sqrt (dot v v)

/-- Cosine similarity of a stored row against the query vector, as computed
by `np.dot(self.vectors, q_vec) / (np.linalg.norm(self.vectors, axis=1) * np.linalg.norm(q_vec))`. -/
noncomputable def cosineSim (v q : List ℝ) : ℝ := dot v q / (vnorm v * vnorm q)

/-- The persisted store plus the manuscript files on disk.  `metadata` is
`data/processed/metadata.json`, `vectors` is `data/processed/vectors.npy`;
`none` models an absent file.  `xmlFiles` maps a manuscript path to its
parsed document; a path absent from the list models `os.path.exists = False`. -/
structure FS where
  metadata : Option (List Chunk)
  vectors : Option (List Vec)
  xmlFiles : List (String × Xml)

/-- Parsed document at a path, `none` when the file does not exist. -/
def lookupFile (files : List (String × Xml)) (path : String) : Option Xml :=
  (files.find? (fun p => p.1 == path)).map (·.2)

/-- Outcome of an indexing run.  `fs` is the final disk state, `embedCalls`
records the input batches sent to the embedding service (one entry per
`client.embeddings.create` call, in call order), and `states` records the
on-disk state after each file write (`np.save`, then `json.dump`) in
program order. -/
structure RunOut where
  fs : FS
  embedCalls : List (List String)
  states : List FS

/-- Default chunk used for `List.getD` at positions the source would have
already indexed successfully (an out-of-range access raises in Python and
is never reached under the store invariants assumed by the theorems). -/
def emptyChunk : Chunk :=
  { id := "", text := "",
    metadata := { region := "", name := "", tag := "", inheritsFrom := none, synonyms := "", raw_xml := "" } }

/-- Default element used only as a `List.getD` fallback in statements about
concrete documents whose relevant position is in range. -/
def emptyXml : Xml := .elem "" [] "" []

namespace Resolver

/-- The `semantic_bridge` dictionary of `src/logic/resolver.py`. -/
def semantic_bridge : List (String × String) :=
  [("Global_Base_Comprehensive", "Standard Base Policy, theft, fire, $500 deductible, master rules"),
   ("CA_Comprehensive", "CALIFORNIA ONLY, seismic surcharge, regional physical damage"),
   ("Governance_Rules", "Effective dates, Factor Precedence, Global Discount Caps, system metadata")]

/-- The four rule-bearing tags of the broadened XPath query in
`resolver.AetherIndexer.chunk_xml`. -/
def ruleTags : List String := ["Coverage", "Factor", "Governance_Rules", "LOB_Configuration"]

/-- Model of `resolver.AetherIndexer.chunk_xml(file_path, region)`; `expand` is the
`_expand_synonyms` call (an external generative service which internally
falls back to a fixed string on failure, hence a total function). -/
def chunk_xml (expand : String → String → String) (doc : Xml) (region : String) : List Chunk :=
  (collectTagged ruleTags doc).map (fun node =>
    let name := (Xml.attr node "name").getD (Xml.tag node)
    let inherits := Xml.attr node "inheritsFrom"
    let raw_xml := serialize node
    let lookup_key := region ++ "_" ++ name
    let static_keywords := (dictGet semantic_bridge lookup_key).getD ((dictGet semantic_bridge name).getD "General Coverage")
    let dynamic_keywords := expand name raw_xml
    let searchable_text := "REGION: " ++ region ++ " | TAG: " ++ Xml.tag node ++ " | ID: " ++ name ++ " | INTENT: " ++ static_keywords ++ " | COLLOQUIAL: " ++ dynamic_keywords
    { id := region ++ "_" ++ Xml.tag node ++ "_" ++ name,
      text := searchable_text,
      -- the source metadata dict has no synonyms key: modelled as ""
      metadata := { region := region, name := name, tag := Xml.tag node,
                    inheritsFrom := inherits, synonyms := "", raw_xml := raw_xml } })

/-- Chunks gathered by `resolver.AetherIndexer.run` over `files_config`
(insertion order), skipping paths that do not exist. -/
def gatherChunks (expand : String → String → String) (fs : FS) (files_config : List (String × String)) : List Chunk :=
  files_config.foldl
    (fun acc rp =>
      match lookupFile fs.xmlFiles rp.2 with
      | none => acc
      | some doc => acc ++ chunk_xml expand doc rp.1) []

/-- Model of `resolver.AetherIndexer.run(files_config)`.  Note: this copy of the
builder has no empty-corpus guard; it always calls the embedding service
(with the possibly empty `texts` batch) and always writes both artifacts,
vectors first, metadata second. -/
def run (expand : String → String → String) (embed : String → Vec) (fs : FS)
    (files_config : List (String × String)) : RunOut :=
  let all_chunks := gatherChunks expand fs files_config
  let texts := all_chunks.map (·.text)
  let vectors := texts.map embed
  let fs1 : FS := { fs with vectors := some vectors }      -- np.save(self.vectors_path, ...)
  let fs2 : FS := { fs1 with metadata := some all_chunks } -- json.dump(all_chunks, f)
  { fs := fs2, embedCalls := [texts], states := [fs1, fs2] }

end Resolver

namespace Engine

/-- The in-memory state of `AetherEngine` after `__init__` has loaded the
paired store (construction fails fatally when either artifact is absent,
so a constructed engine always holds both lists). -/
structure State where
  metadata : List Chunk
  vectors : List Vec

/-- Resolution result: the `(status, score, node)` triple returned by
`get_aether_result`. -/
structure Result where
  status : String
  score : ℝ
  node : Chunk

/-- The synthetic placeholder returned on escalation.  The source dict has
only `id` and a metadata dict with only `name` and `raw_xml`; the remaining
record fields model the absent keys (`""` / `none`). -/
def gapNode : Chunk :=
  { id := "JIRA-PENDING", text := "",
    metadata := { region := "", name := "GAP_DETECTED", tag := "", inheritsFrom := none, synonyms := "",
                  raw_xml := "STATUS: No relevant policy found. Action: Create Ticket VRTS." } }

/-- Model of the parent lookup `AetherEngine._get_parent_node(parent_name)`: first store entry whose
name matches and whose region is in the designated global set. -/
def get_parent_node (metadata : List Chunk) (parent_name : String) : Option Chunk :=
  metadata.find? (fun entry =>
    entry.metadata.name == parent_name &&
      (entry.metadata.region == "Global" || entry.metadata.region == "Global_Base"))

/-- The `combined_xml` lineage document synthesized on a successful
inheritance merge. -/
def lineage_xml (inherits_from : String) (parent_entry result_node : Chunk) : String :=
  "### DATA_SOURCE_LINEAGE ###\n\n[[ SOURCE_A: GLOBAL_BASE_LAYER ]]\nENTITY: " ++ inherits_from ++
  "\nCONTENT:\n" ++ parent_entry.metadata.raw_xml ++
  "\n\n[[ SOURCE_B: REGIONAL_OVERLAY ]]\nENTITY: " ++ result_node.metadata.name ++
  "\nREGION: " ++ result_node.metadata.region ++
  "\nCONTENT:\n" ++ result_node.metadata.raw_xml ++
  "\n\n### END_LINEAGE_DATA ###"

/-- The cosine-similarity row of the query vector against every stored
vector, in store order. -/
noncomputable def simScores (e : State) (q_vec : Vec) : List ℝ :=
  e.vectors.map (fun v => cosineSim v q_vec)

/-- Model of `AetherEngine.get_aether_result(query, threshold)`.  `embed` is the
embedding service.  `metadata.getD idx gapNode` models `self.metadata[idx]`,
which in Python raises on a store whose chunk list is shorter than its
vector array; the theorems only use it where the index is in range.
The `inherits_from = ""` branch models Python truthiness: an empty string
is falsy, so `if inherits_from:` skips the healing lookup. -/
noncomputable def get_aether_result (e : State) (embed : String → Vec) (query : String)
    (threshold : ℝ) : Result :=
  let q_vec := embed query
  let sims := simScores e q_vec
  let idx := argmax sims
  let score := sims.getD idx 0
  if score < threshold then
    { status := "ESCALATED", score := score, node := gapNode }
  else
    let result_node := e.metadata.getD idx gapNode
    match result_node.metadata.inheritsFrom with
    | none => { status := "SUCCESS", score := score, node := result_node }
    | some inherits_from =>
        if inherits_from = "" then
          { status := "SUCCESS", score := score, node := result_node }
        else
          match get_parent_node e.metadata inherits_from with
          | none => { status := "SUCCESS", score := score, node := result_node }
          | some parent_entry =>
              -- healed_data carries only id and a copied metadata dict with
              -- raw_xml replaced; the absent text key is modelled as ""
              { status := "SUCCESS", score := 1,
                node := { id := result_node.id, text := "",
                          metadata := { result_node.metadata with
                                        raw_xml := lineage_xml inherits_from parent_entry result_node } } }

end Engine

namespace Indexer

/-- The `semantic_bridge` dictionary of `src/logic/indexer.py`. -/
def semantic_bridge : List (String × String) :=
  [("Global_Comprehensive", "Standard Base Policy, Theft, Stolen Vehicle, Fire, Flood, Vandalism, Glass Damage"),
   ("SafeDriver", "Safe Driver Discount, Clean Record, No Accidents, violation-free multiplier"),
   ("MultiPolicy", "linking multiple accounts, bundling discount, household bundle, multiple policies, combined insurance, cross-sell credit"),
   ("CA_Comprehensive", "CALIFORNIA ONLY, CA STATE RULES, California Stolen Car, Seismic Surcharge, West Coast Theft"),
   ("CA_Seismic_Surcharge", "California Earthquake Fee, Seismic Multiplier, Tremor Surcharge, mandatory disaster fee"),
   ("CA_LIA_Program", "California Low Income Automobile program, state subsidized insurance, eligibility affidavit, low-cost auto"),
   ("HighMileage", "15,000 miles, annual mileage limit, driving distance surcharge, high usage penalty, odometer threshold"),
   ("YouthfulDriver", "under 25, young driver surcharge, teen operator, student driver"),
   ("Uninsured_Motorist", "protection against drivers without insurance, hit and run liability"),
   ("Pet_Rider", "domestic animal coverage, dog injury protection, cat rider")]

/-- Model of `indexer.AetherIndexer.chunk_xml(file_path, region)`: xpath
`.//Coverage | .//Factor`, name attribute defaulting to "Unnamed". -/
def chunk_xml (doc : Xml) (region : String) : List Chunk :=
  (collectTagged ["Coverage", "Factor"] doc).map (fun node =>
    let name := (Xml.attr node "name").getD "Unnamed"
    let raw_xml := serialize node
    let key1 := region ++ "_" ++ name
    -- lookup_key = f"{region}_{name}" if f"{region}_{name}" in self.semantic_bridge else name
    let lookup_key := if (dictGet semantic_bridge key1).isSome then key1 else name
    let synonyms := (dictGet semantic_bridge lookup_key).getD "General Insurance Concept"
    let searchable_text := "DOMAIN: Insurance | REGION: " ++ region ++ " | TECHNICAL_ID: " ++ name ++ " | HUMAN_INTENT: " ++ synonyms
    { id := region ++ "_" ++ name,
      text := searchable_text,
      -- the source metadata dict has no tag / inheritsFrom keys
      metadata := { region := region, name := name, tag := "", inheritsFrom := none,
                    synonyms := synonyms, raw_xml := raw_xml } })

/-- Chunks gathered by `indexer.AetherIndexer.run` over `files_config`
(insertion order), skipping paths that do not exist. -/
def gatherChunks (fs : FS) (files_config : List (String × String)) : List Chunk :=
  files_config.foldl
    (fun acc rp =>
      match lookupFile fs.xmlFiles rp.2 with
      | none => acc
      | some doc => acc ++ chunk_xml doc rp.1) []

/-- Model of `indexer.AetherIndexer.re_index_node(node_name, user_intent)`: targeted
self-healing of a single chunk.  Returns the Python boolean result and the
resulting disk state. -/
def re_index_node (embed : String → Vec) (fs : FS) (node_name user_intent : String) : Bool × FS :=
  match fs.metadata, fs.vectors with
  | some all_chunks, some vectors =>
      match firstIdxWhere (fun c => c.metadata.name == node_name) all_chunks with
      | none => (false, fs)
      | some updated_index =>
          -- the source appends the marked annotation to the text field at the found index
          let chunk := all_chunks.getD updated_index emptyChunk
          let chunks2 := all_chunks.set updated_index
            { chunk with text := chunk.text ++ " | HEALED_INTENT: " ++ user_intent }
          -- re-embed only the now-modified text
          let new_vector := embed (chunks2.getD updated_index emptyChunk).text
          let vectors2 := vectors.set updated_index new_vector
          (true, { fs with metadata := some chunks2, vectors := some vectors2 })
  | _, _ => (false, fs)  -- either persisted artifact absent: no side effects

/-- Model of `indexer.AetherIndexer.run(files_config)`: gathers chunks over all
configured paths, returns without any write or embedding call when the
chunk list is empty, otherwise embeds all texts in one batch and writes
vectors first, metadata second. -/
def run (embed : String → Vec) (fs : FS) (files_config : List (String × String)) : RunOut :=
  let all_chunks := gatherChunks fs files_config
  if all_chunks.isEmpty then
    { fs := fs, embedCalls := [], states := [] }  -- if not all_chunks: return
  else
    let texts := all_chunks.map (·.text)
    let vectors := texts.map embed
    let fs1 : FS := { fs with vectors := some vectors }      -- np.save(self.vectors_path, ...)
    let fs2 : FS := { fs1 with metadata := some all_chunks } -- json.dump(all_chunks, f)
    { fs := fs2, embedCalls := [texts], states := [fs1, fs2] }

end Indexer

/-! Concrete fixtures used by witness and counterexample theorems. -/

namespace Fix

/-- Child chunk declaring inheritance from "Base". -/
def chunkChild : Chunk :=
  { id := "CA_Coverage_Comp", text := "child searchable",
    metadata := { region := "CA", name := "Comp", tag := "Coverage",
                  inheritsFrom := some "Base", synonyms := "", raw_xml := "childxml" } }

/-- Global parent chunk named "Base". -/
def chunkParent : Chunk :=
  { id := "Global_Coverage_Base", text := "parent searchable",
    metadata := { region := "Global", name := "Base", tag := "Coverage",
                  inheritsFrom := none, synonyms := "", raw_xml := "parentxml" } }

/-- Child chunk whose declared parent does not exist in the store. -/
def chunkOrphan : Chunk :=
  { id := "CA_Coverage_Orphan", text := "orphan searchable",
    metadata := { region := "CA", name := "Orphan", tag := "Coverage",
                  inheritsFrom := some "Nope", synonyms := "", raw_xml := "orphanxml" } }

/-- Chunk whose inheritsFrom attribute is present but empty. -/
def chunkEmptyInherit : Chunk :=
  { id := "CA_Coverage_E", text := "e searchable",
    metadata := { region := "CA", name := "E", tag := "Coverage",
                  inheritsFrom := some "", synonyms := "", raw_xml := "c" } }

/-- Global chunk whose name is the empty string. -/
def chunkEmptyName : Chunk :=
  { id := "Global_Coverage_X", text := "g searchable",
    metadata := { region := "Global", name := "", tag := "Coverage",
                  inheritsFrom := none, synonyms := "", raw_xml := "PARENTXML" } }

/-- Engine whose best match (under `embedW`) is `chunkChild`, with its
parent present. -/
noncomputable def engW : Engine.State :=
  { metadata := [chunkChild, chunkParent], vectors := [[1, 0], [0, 1]] }

/-- Engine holding only the orphan chunk. -/
noncomputable def engOrph : Engine.State :=
  { metadata := [chunkOrphan], vectors := [[1, 0]] }

/-- Engine whose best match declares the empty string as parent name while
a Global chunk named "" exists. -/
noncomputable def engCex : Engine.State :=
  { metadata := [chunkEmptyInherit, chunkEmptyName], vectors := [[1, 0], [0, 1]] }

/-- Embedding service fixture: every query embeds to `[1, 0]`. -/
noncomputable def embedW : String → Vec := fun _ => [1, 0]

/-- Embedding service fixture producing the one-dimensional vector `[1]`. -/
noncomputable def embedOne : String → Vec := fun _ => [1]

/-- Synonym service fixture. -/
def expandW : String → String → String := fun _ _ => "syn"

/-- A manuscript with one Coverage node and one Factor node. -/
def docW : Xml :=
  .elem "Manuscript" [] ""
    [.elem "Coverage" [("name", "Comp"), ("inheritsFrom", "Base")] "ctext" [],
     .elem "Factor" [("name", "SafeDriver")] "" []]

/-- A manuscript whose single rule node has no name attribute. -/
def docNoName : Xml :=
  .elem "Manuscript" [] ""
    [.elem "Governance_Rules" [("inheritsFrom", "Base")] "gtext" []]

/-- A manuscript whose single rule node is a Coverage node without a name
attribute but with an inheritsFrom attribute. -/
def docCov : Xml :=
  .elem "Manuscript" [] ""
    [.elem "Coverage" [("inheritsFrom", "Base")] "ctext" []]

/-- Disk state with no persisted store and one manuscript on disk. -/
def fsRun : FS := { metadata := none, vectors := none, xmlFiles := [("ca.xml", docW)] }

/-- Builder configuration pointing at the one manuscript. -/
def configW : List (String × String) := [("CA", "ca.xml")]

/-- Builder configuration whose only path is missing from disk. -/
def configMissing : List (String × String) := [("CA", "missing.xml")]

/-- Disk state with a previously persisted one-chunk store. -/
noncomputable def fsOld : FS :=
  { metadata := some [chunkParent], vectors := some [[0]], xmlFiles := [("ca.xml", docW)] }

/-- Disk state with a persisted two-chunk store satisfying the embedding
invariant for `embedOne`. -/
noncomputable def fsStore : FS :=
  { metadata := some [chunkChild, chunkParent], vectors := some [[1], [1]], xmlFiles := [] }

/-- Disk state where both store artifacts are absent. -/
def fsNone : FS := { metadata := none, vectors := none, xmlFiles := [] }

end Fix

/-! Helper lemmas about the argmax model. -/

/-- The starting best value is below the running maximum. -/
theorem le_maxFrom (bv : ℝ) (xs : List ℝ) : bv ≤ maxFrom bv xs := by
  induction xs generalizing bv with
  | nil => simp [maxFrom]
  | cons x xs ih =>
      by_cases h : bv < x
      · simp only [maxFrom, if_pos h]
        exact le_of_lt (lt_of_lt_of_le h (ih x))
      · simp only [maxFrom, if_neg h]
        exact ih bv

/-- Every scanned element is below the running maximum. -/
theorem mem_le_maxFrom (bv : ℝ) (xs : List ℝ) : ∀ y ∈ xs, y ≤ maxFrom bv xs := by
  induction xs generalizing bv with
  | nil => intro y hy; simp at hy
  | cons x xs ih =>
      intro y hy
      rcases List.mem_cons.mp hy with rfl | hy
      · by_cases h : bv < y
        · simp only [maxFrom, if_pos h]; exact le_maxFrom y xs
        · simp only [maxFrom, if_neg h]
          exact le_trans (le_of_not_lt h) (le_maxFrom bv xs)
      · by_cases h : bv < x
        · simp only [maxFrom, if_pos h]; exact ih x y hy
        · simp only [maxFrom, if_neg h]; exact ih bv y hy

/-- The running maximum is the start value or one of the scanned elements. -/
theorem maxFrom_mem (bv : ℝ) (xs : List ℝ) : maxFrom bv xs = bv ∨ maxFrom bv xs ∈ xs := by
  induction xs generalizing bv with
  | nil => left; simp [maxFrom]
  | cons x xs ih =>
      by_cases h : bv < x
      · simp only [maxFrom, if_pos h]
        rcases ih x with h1 | h1
        · right; simp [h1]
        · right; exact List.mem_cons_of_mem _ h1
      · simp only [maxFrom, if_neg h]
        rcases ih bv with h1 | h1
        · left; exact h1
        · right; exact List.mem_cons_of_mem _ h1

/-- Value of `List.getD` at a position known from the optional lookup. -/
theorem getD_of_get? {α : Type} {l : List α} {n : Nat} {a d : α}
    (h : l[n]? = some a) : l.getD n d = a := by
  rw [List.getD_eq_getElem?_getD, h]; rfl

/-- The value selected by `argmaxFrom` is the running maximum, provided the
accumulator invariant holds: `bv` sits at index `bi` of the full list and
`xs` is the suffix of the full list starting at index `i`. -/
theorem argmaxFrom_getD (xs : List ℝ) : ∀ (l : List ℝ) (bi i : Nat) (bv : ℝ),
    l.getD bi 0 = bv → l.drop i = xs →
    l.getD (argmaxFrom bi bv i xs) 0 = maxFrom bv xs := by
  induction xs with
  | nil => intro l bi i bv h1 _; simpa [argmaxFrom, maxFrom] using h1
  | cons x xs ih =>
      intro l bi i bv h1 h2
      have hget : l[i]? = some x := by
        have h3 : (l.drop i)[0]? = some x := by rw [h2]; simp
        rwa [List.getElem?_drop, Nat.add_zero] at h3
      have hx : l.getD i 0 = x := getD_of_get? hget
      have hd : l.drop (i + 1) = xs := by
        have h4 : List.drop 1 (List.drop i l) = List.drop 1 (x :: xs) := by rw [h2]
        rwa [List.drop_drop, List.drop_one, List.tail_cons] at h4
      by_cases hlt : bv < x
      · simp only [argmaxFrom, maxFrom, if_pos hlt]
        exact ih l i (i + 1) x hx hd
      · simp only [argmaxFrom, maxFrom, if_neg hlt]
        exact ih l bi (i + 1) bv h1 hd

/-- The score `sims[argmax(sims)]` computed by the engine is the maximum of
a nonempty similarity list. -/
theorem getD_argmax (x : ℝ) (xs : List ℝ) :
    (x :: xs).getD (argmax (x :: xs)) 0 = maxFrom x xs := by
  have h1 : (x :: xs).getD 0 0 = x := rfl
  have h2 : (x :: xs).drop 1 = xs := rfl
  simpa [argmax] using argmaxFrom_getD xs (x :: xs) 0 1 x h1 h2

/-! Branch characterizations of `get_aether_result`. -/

/-- Escalation branch: when the selected score is below the threshold the
engine returns the placeholder with that score. -/
theorem aether_escalated (e : Engine.State) (embed : String → Vec) (q : String) (T : ℝ)
    (h : (Engine.simScores e (embed q)).getD (argmax (Engine.simScores e (embed q))) 0 < T) :
    Engine.get_aether_result e embed q T =
      { status := "ESCALATED",
        score := (Engine.simScores e (embed q)).getD (argmax (Engine.simScores e (embed q))) 0,
        node := Engine.gapNode } := by
  simp only [Engine.get_aether_result]
  rw [if_pos h]

/-- Above threshold, every branch returns status SUCCESS. -/
theorem aether_success_status (e : Engine.State) (embed : String → Vec) (q : String) (T : ℝ)
    (h : ¬ (Engine.simScores e (embed q)).getD (argmax (Engine.simScores e (embed q))) 0 < T) :
    (Engine.get_aether_result e embed q T).status = "SUCCESS" := by
  simp only [Engine.get_aether_result]
  rw [if_neg h]
  split
  · rfl
  · split
    · rfl
    · split <;> rfl

/-- Healing branch: nonempty declared parent found in the global set. -/
theorem aether_healed (e : Engine.State) (embed : String → Vec) (q : String) (T : ℝ)
    (child p : Chunk) (X : String)
    (hsc : ¬ (Engine.simScores e (embed q)).getD (argmax (Engine.simScores e (embed q))) 0 < T)
    (hchild : e.metadata[argmax (Engine.simScores e (embed q))]? = some child)
    (hinh : child.metadata.inheritsFrom = some X) (hX : X ≠ "")
    (hp : Engine.get_parent_node e.metadata X = some p) :
    Engine.get_aether_result e embed q T =
      { status := "SUCCESS", score := 1,
        node := { id := child.id, text := "",
                  metadata := { child.metadata with raw_xml := Engine.lineage_xml X p child } } } := by
  simp only [Engine.get_aether_result]
  rw [if_neg hsc, getD_of_get? hchild, hinh]
  simp only [if_neg hX, hp]

/-- Fallthrough branches: no declared parent, an empty (falsy) declared
parent name, or a declared parent not found in the global set, all return
the matched chunk unmodified with the computed score. -/
theorem aether_success_noheal (e : Engine.State) (embed : String → Vec) (q : String) (T : ℝ)
    (child : Chunk)
    (hsc : ¬ (Engine.simScores e (embed q)).getD (argmax (Engine.simScores e (embed q))) 0 < T)
    (hchild : e.metadata[argmax (Engine.simScores e (embed q))]? = some child)
    (hcase : child.metadata.inheritsFrom = none ∨ child.metadata.inheritsFrom = some "" ∨
      ∃ Y, child.metadata.inheritsFrom = some Y ∧ Engine.get_parent_node e.metadata Y = none) :
    Engine.get_aether_result e embed q T =
      { status := "SUCCESS",
        score := (Engine.simScores e (embed q)).getD (argmax (Engine.simScores e (embed q))) 0,
        node := child } := by
  simp only [Engine.get_aether_result]
  rw [if_neg hsc, getD_of_get? hchild]
  rcases hcase with hc | hc | ⟨Y, hc, hpn⟩
  · rw [hc]
  · rw [hc]; exact rfl
  · rw [hc]
    dsimp only
    by_cases hY : Y = ""
    · subst hY; exact rfl
    · rw [if_neg hY, hpn]

/-- The lookup `_get_parent_node` returns none when no chunk qualifies. -/
theorem get_parent_node_eq_none_of (l : List Chunk) (Y : String)
    (h : ∀ c ∈ l, ¬(c.metadata.name = Y ∧ (c.metadata.region = "Global" ∨ c.metadata.region = "Global_Base"))) :
    Engine.get_parent_node l Y = none := by
  simp only [Engine.get_parent_node, List.find?_eq_none]
  intro x hx
  have := h x hx
  simpa [Bool.and_eq_true, Bool.or_eq_true, beq_iff_eq] using this

/-- The lookup `_get_parent_node` finds a qualifying chunk when one exists. -/
theorem get_parent_node_of_exists (l : List Chunk) (Y : String)
    (h : ∃ c ∈ l, c.metadata.name = Y ∧ (c.metadata.region = "Global" ∨ c.metadata.region = "Global_Base")) :
    ∃ p, Engine.get_parent_node l Y = some p ∧ p.metadata.name = Y ∧
      (p.metadata.region = "Global" ∨ p.metadata.region = "Global_Base") := by
  have h2 : (l.find? (fun entry =>
      entry.metadata.name == Y &&
        (entry.metadata.region == "Global" || entry.metadata.region == "Global_Base"))).isSome := by
    apply List.find?_isSome.mpr
    obtain ⟨c, hc, hh⟩ := h
    exact ⟨c, hc, by simpa [Bool.and_eq_true, Bool.or_eq_true, beq_iff_eq] using hh⟩
  obtain ⟨p, hp⟩ := Option.isSome_iff_exists.mp h2
  refine ⟨p, hp, ?_⟩
  have h3 := List.find?_some hp
  simpa [Bool.and_eq_true, Bool.or_eq_true, beq_iff_eq] using h3

/-- C1: for every query and threshold, `get_aether_result` returns status
ESCALATED if and only if the maximum cosine similarity between the embedded
query and all stored vectors is strictly below the threshold (for a
nonempty store, the maximum is below T exactly when every row similarity
is); in that case the returned node is the synthetic GAP_DETECTED
placeholder and the returned score is the computed maximum similarity
(it belongs to the similarity list and dominates every entry of it). -/
theorem c1_escalated_iff_max_below_threshold (e : Engine.State) (embed : String → Vec)
    (q : String) (T : ℝ) (hne : e.vectors ≠ []) :
    ((Engine.get_aether_result e embed q T).status = "ESCALATED" ↔
      ∀ v ∈ e.vectors, cosineSim v (embed q) < T) ∧
    ((Engine.get_aether_result e embed q T).status = "ESCALATED" →
      (Engine.get_aether_result e embed q T).node = Engine.gapNode ∧
      (Engine.get_aether_result e embed q T).node.metadata.name = "GAP_DETECTED" ∧
      (Engine.get_aether_result e embed q T).score ∈ Engine.simScores e (embed q) ∧
      ∀ s ∈ Engine.simScores e (embed q), s ≤ (Engine.get_aether_result e embed q T).score) := by
  obtain ⟨v0, vs, hv⟩ : ∃ v0 vs, e.vectors = v0 :: vs := by
    cases hva : e.vectors with
    | nil => exact absurd hva hne
    | cons a l => exact ⟨a, l, rfl⟩
  have hmap : Engine.simScores e (embed q) = e.vectors.map (fun v => cosineSim v (embed q)) := rfl
  have hsims : Engine.simScores e (embed q) =
      cosineSim v0 (embed q) :: vs.map (fun v => cosineSim v (embed q)) := by
    rw [hmap, hv]; rfl
  have hscore : (Engine.simScores e (embed q)).getD (argmax (Engine.simScores e (embed q))) 0 =
      maxFrom (cosineSim v0 (embed q)) (vs.map (fun v => cosineSim v (embed q))) := by
    rw [hsims]; exact getD_argmax _ _
  have hall_le : ∀ y ∈ Engine.simScores e (embed q),
      y ≤ maxFrom (cosineSim v0 (embed q)) (vs.map (fun v => cosineSim v (embed q))) := by
    intro y hy
    rw [hsims] at hy
    rcases List.mem_cons.mp hy with rfl | hy
    · exact le_maxFrom _ _
    · exact mem_le_maxFrom _ _ _ hy
  have hmax_mem : maxFrom (cosineSim v0 (embed q)) (vs.map (fun v => cosineSim v (embed q))) ∈
      Engine.simScores e (embed q) := by
    rw [hsims]
    rcases maxFrom_mem (cosineSim v0 (embed q)) (vs.map (fun v => cosineSim v (embed q))) with h1 | h1
    · rw [h1]; exact List.mem_cons_self _ _
    · exact List.mem_cons_of_mem _ h1
  by_cases hlt : maxFrom (cosineSim v0 (embed q)) (vs.map (fun v => cosineSim v (embed q))) < T
  · have hres := aether_escalated e embed q T (by rw [hscore]; exact hlt)
    constructor
    · apply iff_of_true
      · rw [hres]
      · intro v hvm
        have hy : cosineSim v (embed q) ∈ Engine.simScores e (embed q) := by
          rw [hmap]; exact List.mem_map_of_mem _ hvm
        exact lt_of_le_of_lt (hall_le _ hy) hlt
    · intro _
      refine ⟨by rw [hres], by rw [hres]; rfl, ?_, ?_⟩
      · rw [hres]
        dsimp only
        rw [hscore]
        exact hmax_mem
      · intro s hs
        rw [hres]
        dsimp only
        rw [hscore]
        exact hall_le s hs
  · have hstat := aether_success_status e embed q T (by rw [hscore]; exact hlt)
    constructor
    · apply iff_of_false
      · rw [hstat]; decide
      · intro hall
        obtain ⟨v, hvm, hveq⟩ := List.mem_map.mp (by rw [hmap] at hmax_mem; exact hmax_mem)
        exact hlt (hveq ▸ hall v hvm)
    · intro hEsc
      rw [hstat] at hEsc
      exact absurd hEsc (by decide)

/-- Witness for C1 at a concrete engine, query and threshold. -/
theorem c1_witness :
    Fix.engW.vectors ≠ [] ∧
    ((Engine.get_aether_result Fix.engW Fix.embedW "earthquake fee" 2).status = "ESCALATED" ↔
      ∀ v ∈ Fix.engW.vectors, cosineSim v (Fix.embedW "earthquake fee") < 2) :=
  ⟨by simp [Fix.engW],
   (c1_escalated_iff_max_below_threshold Fix.engW Fix.embedW "earthquake fee" 2
     (by simp [Fix.engW])).1⟩

/-! Evaluation lemmas for the concrete fixtures. -/

/-- Cosine similarity of the first basis vector with itself. -/
theorem cos_e1_e1 : cosineSim [(1 : ℝ), 0] [1, 0] = 1 := by
  simp [cosineSim, vnorm, dot]

/-- Cosine similarity of orthogonal basis vectors. -/
theorem cos_e2_e1 : cosineSim [(0 : ℝ), 1] [1, 0] = 0 := by
  simp [cosineSim, vnorm, dot]

/-- Similarity row of the witness engine. -/
theorem sims_engW (s : String) : Engine.simScores Fix.engW (Fix.embedW s) = [1, 0] := by
  simp [Engine.simScores, Fix.engW, Fix.embedW, cos_e1_e1, cos_e2_e1]

/-- Similarity row of the counterexample engine. -/
theorem sims_engCex (s : String) : Engine.simScores Fix.engCex (Fix.embedW s) = [1, 0] := by
  simp [Engine.simScores, Fix.engCex, Fix.embedW, cos_e1_e1, cos_e2_e1]

/-- Similarity row of the orphan engine. -/
theorem sims_engOrph (s : String) : Engine.simScores Fix.engOrph (Fix.embedW s) = [1] := by
  simp [Engine.simScores, Fix.engOrph, Fix.embedW, cos_e1_e1]

/-- Argmax of the concrete similarity row `[1, 0]`. -/
theorem argmax_one_zero : argmax [(1 : ℝ), 0] = 0 := by
  simp only [argmax, argmaxFrom]
  rw [if_neg (by norm_num : ¬ (1 : ℝ) < 0)]

/-- Argmax of the singleton similarity row `[1]`. -/
theorem argmax_one : argmax [(1 : ℝ)] = 0 := by
  simp only [argmax, argmaxFrom]

/-- C2 (amended): if the best-matching chunk declares a nonempty parent
name X, some store chunk is named X with region in the designated global
set, and the similarity of the query to the best match meets the
threshold, then resolve returns SUCCESS with score exactly 1.0 and a copy
of the matched chunk whose raw_xml is a lineage document containing the
parent raw content before the child raw content, while the returned node
id, name and region remain the child ones.  The nonemptiness of X is the
amendment: the source guards healing with Python truthiness, so an empty
declared parent name never heals (see the counterexample). -/
theorem c2_inheritance_merge (e : Engine.State) (embed : String → Vec) (q : String) (T : ℝ)
    (child : Chunk) (X : String)
    (hchild : e.metadata[argmax (Engine.simScores e (embed q))]? = some child)
    (hinh : child.metadata.inheritsFrom = some X)
    (hX : X ≠ "")
    (hpar : ∃ c ∈ e.metadata, c.metadata.name = X ∧
      (c.metadata.region = "Global" ∨ c.metadata.region = "Global_Base"))
    (hth : T ≤ (Engine.simScores e (embed q)).getD (argmax (Engine.simScores e (embed q))) 0) :
    (Engine.get_aether_result e embed q T).status = "SUCCESS" ∧
    (Engine.get_aether_result e embed q T).score = 1 ∧
    (Engine.get_aether_result e embed q T).node.id = child.id ∧
    (Engine.get_aether_result e embed q T).node.metadata.name = child.metadata.name ∧
    (Engine.get_aether_result e embed q T).node.metadata.region = child.metadata.region ∧
    ∃ p, Engine.get_parent_node e.metadata X = some p ∧ p.metadata.name = X ∧
      (p.metadata.region = "Global" ∨ p.metadata.region = "Global_Base") ∧
      ∃ s1 s2 s3, (Engine.get_aether_result e embed q T).node.metadata.raw_xml =
        s1 ++ p.metadata.raw_xml ++ s2 ++ child.metadata.raw_xml ++ s3 := by
  obtain ⟨p, hp, hpn, hpr⟩ := get_parent_node_of_exists e.metadata X hpar
  have hres := aether_healed e embed q T child p X (not_lt.mpr hth) hchild hinh hX hp
  rw [hres]
  refine ⟨rfl, rfl, rfl, rfl, rfl, p, hp, hpn, hpr,
    "### DATA_SOURCE_LINEAGE ###\n\n[[ SOURCE_A: GLOBAL_BASE_LAYER ]]\nENTITY: " ++ X ++ "\nCONTENT:\n",
    "\n\n[[ SOURCE_B: REGIONAL_OVERLAY ]]\nENTITY: " ++ child.metadata.name ++ "\nREGION: " ++ child.metadata.region ++ "\nCONTENT:\n",
    "\n\n### END_LINEAGE_DATA ###", ?_⟩
  simp [Engine.lineage_xml, String.append_assoc]

/-- Witness for the amended C2 on a concrete store where the best match
declares parent "Base" and a Global chunk named "Base" exists. -/
theorem c2_witness :
    (Fix.engW.metadata[argmax (Engine.simScores Fix.engW (Fix.embedW "ca comprehensive"))]? =
        some Fix.chunkChild ∧
      Fix.chunkChild.metadata.inheritsFrom = some "Base" ∧
      "Base" ≠ "" ∧
      (∃ c ∈ Fix.engW.metadata, c.metadata.name = "Base" ∧
        (c.metadata.region = "Global" ∨ c.metadata.region = "Global_Base")) ∧
      (1 / 2 : ℝ) ≤ (Engine.simScores Fix.engW (Fix.embedW "ca comprehensive")).getD
        (argmax (Engine.simScores Fix.engW (Fix.embedW "ca comprehensive"))) 0) ∧
    ((Engine.get_aether_result Fix.engW Fix.embedW "ca comprehensive" (1 / 2)).status = "SUCCESS" ∧
      (Engine.get_aether_result Fix.engW Fix.embedW "ca comprehensive" (1 / 2)).score = 1) := by
  have h1 : Fix.engW.metadata[argmax (Engine.simScores Fix.engW (Fix.embedW "ca comprehensive"))]? =
      some Fix.chunkChild := by
    rw [sims_engW, argmax_one_zero]; rfl
  have h2 : Fix.chunkChild.metadata.inheritsFrom = some "Base" := rfl
  have h3 : ("Base" : String) ≠ "" := by decide
  have h4 : ∃ c ∈ Fix.engW.metadata, c.metadata.name = "Base" ∧
      (c.metadata.region = "Global" ∨ c.metadata.region = "Global_Base") :=
    ⟨Fix.chunkParent, by simp [Fix.engW], rfl, Or.inl rfl⟩
  have h5 : (1 / 2 : ℝ) ≤ (Engine.simScores Fix.engW (Fix.embedW "ca comprehensive")).getD
      (argmax (Engine.simScores Fix.engW (Fix.embedW "ca comprehensive"))) 0 := by
    rw [sims_engW, argmax_one_zero]
    norm_num
  have h := c2_inheritance_merge Fix.engW Fix.embedW "ca comprehensive" (1 / 2)
    Fix.chunkChild "Base" h1 h2 h3 h4 h5
  exact ⟨⟨h1, h2, h3, h4, h5⟩, h.1, h.2.1⟩

/-- Counterexample to C2 as stated: with an empty declared parent name the
premises of the claim hold (a Global chunk named "" exists and the best
match declares inheritsFrom ""), yet the engine skips healing because the
empty string is falsy in Python, returning the original raw_xml, which
cannot contain the parent content. -/
theorem c2_counterexample :
    Fix.engCex.metadata[argmax (Engine.simScores Fix.engCex (Fix.embedW "q"))]? =
        some Fix.chunkEmptyInherit ∧
    Fix.chunkEmptyInherit.metadata.inheritsFrom = some "" ∧
    (∃ c ∈ Fix.engCex.metadata, c.metadata.name = "" ∧
      (c.metadata.region = "Global" ∨ c.metadata.region = "Global_Base")) ∧
    (1 / 2 : ℝ) ≤ (Engine.simScores Fix.engCex (Fix.embedW "q")).getD
      (argmax (Engine.simScores Fix.engCex (Fix.embedW "q"))) 0 ∧
    ¬ ∃ s1 s2 s3, (Engine.get_aether_result Fix.engCex Fix.embedW "q" (1 / 2)).node.metadata.raw_xml =
        s1 ++ "PARENTXML" ++ s2 ++ "c" ++ s3 := by
  have h1 : Fix.engCex.metadata[argmax (Engine.simScores Fix.engCex (Fix.embedW "q"))]? =
      some Fix.chunkEmptyInherit := by
    rw [sims_engCex, argmax_one_zero]; rfl
  have h5 : ¬ (Engine.simScores Fix.engCex (Fix.embedW "q")).getD
      (argmax (Engine.simScores Fix.engCex (Fix.embedW "q"))) 0 < (1 / 2 : ℝ) := by
    rw [sims_engCex, argmax_one_zero]
    norm_num
  have hres := aether_success_noheal Fix.engCex Fix.embedW "q" (1 / 2) Fix.chunkEmptyInherit
    h5 h1 (Or.inr (Or.inl rfl))
  refine ⟨h1, rfl, ⟨Fix.chunkEmptyName, by simp [Fix.engCex], rfl, Or.inl rfl⟩,
    not_lt.mp h5, ?_⟩
  rintro ⟨s1, s2, s3, h⟩
  rw [hres] at h
  have hlen := congrArg String.length h
  have hc : (Fix.chunkEmptyInherit.metadata.raw_xml).length = 1 := rfl
  have hp : ("PARENTXML" : String).length = 9 := rfl
  simp only [String.length_append, hc, hp] at hlen
  omega

/-- The engine score `sims[argmax(sims)]` is a member of the similarity
list and dominates all of its entries (nonempty store). -/
theorem score_is_max (e : Engine.State) (embed : String → Vec) (q : String)
    (hne : e.vectors ≠ []) :
    (Engine.simScores e (embed q)).getD (argmax (Engine.simScores e (embed q))) 0 ∈
        Engine.simScores e (embed q) ∧
    ∀ s ∈ Engine.simScores e (embed q),
      s ≤ (Engine.simScores e (embed q)).getD (argmax (Engine.simScores e (embed q))) 0 := by
  obtain ⟨v0, vs, hv⟩ : ∃ v0 vs, e.vectors = v0 :: vs := by
    cases hva : e.vectors with
    | nil => exact absurd hva hne
    | cons a l => exact ⟨a, l, rfl⟩
  have hsims : Engine.simScores e (embed q) =
      cosineSim v0 (embed q) :: vs.map (fun v => cosineSim v (embed q)) := by
    show e.vectors.map (fun v => cosineSim v (embed q)) = _
    rw [hv]; rfl
  have hscore : (Engine.simScores e (embed q)).getD (argmax (Engine.simScores e (embed q))) 0 =
      maxFrom (cosineSim v0 (embed q)) (vs.map (fun v => cosineSim v (embed q))) := by
    rw [hsims]; exact getD_argmax _ _
  rw [hscore]
  constructor
  · rw [hsims]
    rcases maxFrom_mem (cosineSim v0 (embed q)) (vs.map (fun v => cosineSim v (embed q))) with h1 | h1
    · rw [h1]; exact List.mem_cons_self _ _
    · exact List.mem_cons_of_mem _ h1
  · intro s hs
    rw [hsims] at hs
    rcases List.mem_cons.mp hs with rfl | hs
    · exact le_maxFrom _ _
    · exact mem_le_maxFrom _ _ _ hs

/-- C4: if the best-matching chunk declares a parent name Y but no store
chunk named Y has a region in the designated global set, and the query
similarity to the best match meets the threshold, resolve returns SUCCESS
with the true computed similarity score (the maximum of the similarity
row) and the matched chunk itself, its raw_xml unmodified. -/
theorem c4_missing_parent_fallthrough (e : Engine.State) (embed : String → Vec) (q : String)
    (T : ℝ) (child : Chunk) (Y : String)
    (hne : e.vectors ≠ [])
    (hchild : e.metadata[argmax (Engine.simScores e (embed q))]? = some child)
    (hinh : child.metadata.inheritsFrom = some Y)
    (hnop : ∀ c ∈ e.metadata, ¬(c.metadata.name = Y ∧
      (c.metadata.region = "Global" ∨ c.metadata.region = "Global_Base")))
    (hth : T ≤ (Engine.simScores e (embed q)).getD (argmax (Engine.simScores e (embed q))) 0) :
    (Engine.get_aether_result e embed q T).status = "SUCCESS" ∧
    (Engine.get_aether_result e embed q T).node = child ∧
    (Engine.get_aether_result e embed q T).node.metadata.raw_xml = child.metadata.raw_xml ∧
    (Engine.get_aether_result e embed q T).score =
      (Engine.simScores e (embed q)).getD (argmax (Engine.simScores e (embed q))) 0 ∧
    (Engine.get_aether_result e embed q T).score ∈ Engine.simScores e (embed q) ∧
    ∀ s ∈ Engine.simScores e (embed q), s ≤ (Engine.get_aether_result e embed q T).score := by
  have hcase : child.metadata.inheritsFrom = none ∨ child.metadata.inheritsFrom = some "" ∨
      ∃ Z, child.metadata.inheritsFrom = some Z ∧ Engine.get_parent_node e.metadata Z = none := by
    by_cases hY : Y = ""
    · exact Or.inr (Or.inl (hY ▸ hinh))
    · exact Or.inr (Or.inr ⟨Y, hinh, get_parent_node_eq_none_of e.metadata Y hnop⟩)
  have hres := aether_success_noheal e embed q T child (not_lt.mpr hth) hchild hcase
  have hmax := score_is_max e embed q hne
  rw [hres]
  exact ⟨rfl, rfl, rfl, rfl, hmax.1, hmax.2⟩

/-- Witness for C4 on a store whose only chunk declares the absent parent
"Nope". -/
theorem c4_witness :
    (Fix.engOrph.vectors ≠ [] ∧
      Fix.engOrph.metadata[argmax (Engine.simScores Fix.engOrph (Fix.embedW "orphan query"))]? =
        some Fix.chunkOrphan ∧
      Fix.chunkOrphan.metadata.inheritsFrom = some "Nope" ∧
      (∀ c ∈ Fix.engOrph.metadata, ¬(c.metadata.name = "Nope" ∧
        (c.metadata.region = "Global" ∨ c.metadata.region = "Global_Base"))) ∧
      (1 / 2 : ℝ) ≤ (Engine.simScores Fix.engOrph (Fix.embedW "orphan query")).getD
        (argmax (Engine.simScores Fix.engOrph (Fix.embedW "orphan query"))) 0) ∧
    ((Engine.get_aether_result Fix.engOrph Fix.embedW "orphan query" (1 / 2)).status = "SUCCESS" ∧
      (Engine.get_aether_result Fix.engOrph Fix.embedW "orphan query" (1 / 2)).node =
        Fix.chunkOrphan) := by
  have hne : Fix.engOrph.vectors ≠ [] := by simp [Fix.engOrph]
  have h1 : Fix.engOrph.metadata[argmax (Engine.simScores Fix.engOrph (Fix.embedW "orphan query"))]? =
      some Fix.chunkOrphan := by
    rw [sims_engOrph, argmax_one]; rfl
  have h2 : Fix.chunkOrphan.metadata.inheritsFrom = some "Nope" := rfl
  have h3 : ∀ c ∈ Fix.engOrph.metadata, ¬(c.metadata.name = "Nope" ∧
      (c.metadata.region = "Global" ∨ c.metadata.region = "Global_Base")) := by
    intro c hc
    have : c = Fix.chunkOrphan := by simpa [Fix.engOrph] using hc
    subst this
    simp [Fix.chunkOrphan]
  have h5 : (1 / 2 : ℝ) ≤ (Engine.simScores Fix.engOrph (Fix.embedW "orphan query")).getD
      (argmax (Engine.simScores Fix.engOrph (Fix.embedW "orphan query"))) 0 := by
    rw [sims_engOrph, argmax_one]
    norm_num
  have h := c4_missing_parent_fallthrough Fix.engOrph Fix.embedW "orphan query" (1 / 2)
    Fix.chunkOrphan "Nope" hne h1 h2 h3 h5
  exact ⟨⟨hne, h1, h2, h3, h5⟩, h.1, h.2.1⟩

/-- C10: a healed resolution does not mutate the loaded store.  The
returned node is a fresh value whose copied metadata agrees with the
matched chunk on every field except raw_xml (which holds the lineage
document), and the store entry at the matched index still holds the
original chunk with its original raw_xml.  In this pure embedding the
engine state is a value, mirroring the `metadata.copy()` in the source:
the healed record is built from a copy, so any subsequent resolve against
the same engine state reads the unmodified store. -/
theorem c10_healed_copy_leaves_store (e : Engine.State) (embed : String → Vec) (q : String)
    (T : ℝ) (child p : Chunk) (X : String)
    (hchild : e.metadata[argmax (Engine.simScores e (embed q))]? = some child)
    (hinh : child.metadata.inheritsFrom = some X) (hX : X ≠ "")
    (hp : Engine.get_parent_node e.metadata X = some p)
    (hth : T ≤ (Engine.simScores e (embed q)).getD (argmax (Engine.simScores e (embed q))) 0) :
    (Engine.get_aether_result e embed q T).node.metadata.raw_xml = Engine.lineage_xml X p child ∧
    (Engine.get_aether_result e embed q T).node.id = child.id ∧
    (Engine.get_aether_result e embed q T).node.metadata.name = child.metadata.name ∧
    (Engine.get_aether_result e embed q T).node.metadata.region = child.metadata.region ∧
    (Engine.get_aether_result e embed q T).node.metadata.tag = child.metadata.tag ∧
    (Engine.get_aether_result e embed q T).node.metadata.inheritsFrom = child.metadata.inheritsFrom ∧
    (Engine.get_aether_result e embed q T).node.metadata.synonyms = child.metadata.synonyms ∧
    (e.metadata[argmax (Engine.simScores e (embed q))]?).map (fun c => c.metadata.raw_xml) =
      some child.metadata.raw_xml := by
  have hres := aether_healed e embed q T child p X (not_lt.mpr hth) hchild hinh hX hp
  rw [hres]
  exact ⟨rfl, rfl, rfl, rfl, rfl, rfl, rfl, by rw [hchild]; rfl⟩

/-- Witness for C10 on the concrete healed resolution. -/
theorem c10_witness :
    (Fix.engW.metadata[argmax (Engine.simScores Fix.engW (Fix.embedW "deductible"))]? =
        some Fix.chunkChild ∧
      Fix.chunkChild.metadata.inheritsFrom = some "Base" ∧
      Engine.get_parent_node Fix.engW.metadata "Base" = some Fix.chunkParent ∧
      (1 / 2 : ℝ) ≤ (Engine.simScores Fix.engW (Fix.embedW "deductible")).getD
        (argmax (Engine.simScores Fix.engW (Fix.embedW "deductible"))) 0) ∧
    ((Engine.get_aether_result Fix.engW Fix.embedW "deductible" (1 / 2)).node.metadata.raw_xml =
        Engine.lineage_xml "Base" Fix.chunkParent Fix.chunkChild ∧
      (Fix.engW.metadata[argmax (Engine.simScores Fix.engW (Fix.embedW "deductible"))]?).map
          (fun c => c.metadata.raw_xml) = some Fix.chunkChild.metadata.raw_xml) := by
  have h1 : Fix.engW.metadata[argmax (Engine.simScores Fix.engW (Fix.embedW "deductible"))]? =
      some Fix.chunkChild := by
    rw [sims_engW, argmax_one_zero]; rfl
  have h2 : Fix.chunkChild.metadata.inheritsFrom = some "Base" := rfl
  have hp : Engine.get_parent_node Fix.engW.metadata "Base" = some Fix.chunkParent := rfl
  have h5 : (1 / 2 : ℝ) ≤ (Engine.simScores Fix.engW (Fix.embedW "deductible")).getD
      (argmax (Engine.simScores Fix.engW (Fix.embedW "deductible"))) 0 := by
    rw [sims_engW, argmax_one_zero]
    norm_num
  have h := c10_healed_copy_leaves_store Fix.engW Fix.embedW "deductible" (1 / 2)
    Fix.chunkChild Fix.chunkParent "Base" h1 h2 (by decide) hp h5
  exact ⟨⟨h1, h2, hp, h5⟩, h.1, h.2.2.2.2.2.2.2⟩

mutual
/-- Every node collected from a tree carries one of the searched tags. -/
theorem tag_mem_of_mem_collect (tags : List String) :
    ∀ (x : Xml) (n : Xml), n ∈ collectTagged tags x → n.tag ∈ tags
  | .elem t a s cs, n, h => by
      simp only [collectTagged] at h
      rcases List.mem_append.mp h with h1 | h1
      · by_cases ht : t ∈ tags
        · rw [if_pos ht] at h1
          have hn : n = Xml.elem t a s cs := by simpa using h1
          subst hn
          simpa [Xml.tag] using ht
        · rw [if_neg ht] at h1
          simp at h1
      · exact tag_mem_of_mem_collectList tags cs n h1

/-- Every node collected from a child list carries one of the searched tags. -/
theorem tag_mem_of_mem_collectList (tags : List String) :
    ∀ (l : List Xml) (n : Xml), n ∈ collectTaggedList tags l → n.tag ∈ tags
  | [], n, h => by simp [collectTaggedList] at h
  | c :: cs, n, h => by
      simp only [collectTaggedList] at h
      rcases List.mem_append.mp h with h1 | h1
      · exact tag_mem_of_mem_collect tags c n h1
      · exact tag_mem_of_mem_collectList tags cs n h1
end

/-- C3 (amended): for every manuscript and region, the extractor of
`src/logic/resolver.py` produces one chunk per collected node (the nodes
matching the four rule-bearing tags, each of which indeed carries one of
those tags), and the i-th chunk carries a name defaulting to the node tag
when the name attribute is missing, an inheritsFrom that is none exactly
when the attribute is absent, and the serialized original markup of the
node as raw_xml.  The amendment restricts the claim to this extractor:
the duplicate extractor in `src/logic/indexer.py` matches only Coverage
and Factor nodes, defaults a missing name to "Unnamed" rather than the
tag, and never extracts inheritsFrom (see the counterexample). -/
theorem c3_extractor_fields (expand : String → String → String) (doc : Xml) (region : String) :
    (Resolver.chunk_xml expand doc region).length = (collectTagged Resolver.ruleTags doc).length ∧
    (∀ n ∈ collectTagged Resolver.ruleTags doc, n.tag ∈ Resolver.ruleTags) ∧
    ∀ i (hi : i < (Resolver.chunk_xml expand doc region).length),
      ∃ hn : i < (collectTagged Resolver.ruleTags doc).length,
        ((Resolver.chunk_xml expand doc region).get ⟨i, hi⟩).metadata.name =
          (((collectTagged Resolver.ruleTags doc).get ⟨i, hn⟩).attr "name").getD
            ((collectTagged Resolver.ruleTags doc).get ⟨i, hn⟩).tag ∧
        ((Resolver.chunk_xml expand doc region).get ⟨i, hi⟩).metadata.inheritsFrom =
          ((collectTagged Resolver.ruleTags doc).get ⟨i, hn⟩).attr "inheritsFrom" ∧
        ((Resolver.chunk_xml expand doc region).get ⟨i, hi⟩).metadata.raw_xml =
          serialize ((collectTagged Resolver.ruleTags doc).get ⟨i, hn⟩) := by
  refine ⟨List.length_map _ _, fun n hn => tag_mem_of_mem_collect _ _ _ hn, ?_⟩
  intro i hi
  have hn : i < (collectTagged Resolver.ruleTags doc).length := by
    simpa [Resolver.chunk_xml] using hi
  refine ⟨hn, ?_, ?_, ?_⟩ <;>
    simp [Resolver.chunk_xml, List.get_eq_getElem, List.getElem_map]

/-- Witness for C3 on a one-node manuscript whose rule node has no name
attribute (the name defaults to the tag). -/
theorem c3_witness :
    0 < (Resolver.chunk_xml Fix.expandW Fix.docNoName "CA").length ∧
    ∃ hn : 0 < (collectTagged Resolver.ruleTags Fix.docNoName).length,
      ((Resolver.chunk_xml Fix.expandW Fix.docNoName "CA").get ⟨0, by decide⟩).metadata.name =
        (((collectTagged Resolver.ruleTags Fix.docNoName).get ⟨0, hn⟩).attr "name").getD
          ((collectTagged Resolver.ruleTags Fix.docNoName).get ⟨0, hn⟩).tag ∧
      ((Resolver.chunk_xml Fix.expandW Fix.docNoName "CA").get ⟨0, by decide⟩).metadata.inheritsFrom =
        ((collectTagged Resolver.ruleTags Fix.docNoName).get ⟨0, hn⟩).attr "inheritsFrom" ∧
      ((Resolver.chunk_xml Fix.expandW Fix.docNoName "CA").get ⟨0, by decide⟩).metadata.raw_xml =
        serialize ((collectTagged Resolver.ruleTags Fix.docNoName).get ⟨0, hn⟩) :=
  ⟨by decide, (c3_extractor_fields Fix.expandW Fix.docNoName "CA").2.2 0 (by decide)⟩

/-- Counterexample to C3 as stated of the extractor copy in
`src/logic/indexer.py`, which the claim also cites (and which the
application wires in): on a manuscript whose single node is a
Governance_Rules node it produces zero chunks although one node matches
the four rule-bearing tags, and on a Coverage node without a name
attribute it defaults the name to "Unnamed" instead of the tag name and
records no inheritsFrom although the attribute is present. -/
theorem c3_counterexample :
    (collectTagged Resolver.ruleTags Fix.docNoName).length = 1 ∧
    (Indexer.chunk_xml Fix.docNoName "CA").length = 0 ∧
    (collectTagged Resolver.ruleTags Fix.docCov).length = 1 ∧
    (Indexer.chunk_xml Fix.docCov "CA").length = 1 ∧
    ((collectTagged Resolver.ruleTags Fix.docCov).getD 0 emptyXml).attr "name" = none ∧
    ((collectTagged Resolver.ruleTags Fix.docCov).getD 0 emptyXml).tag = "Coverage" ∧
    ((Indexer.chunk_xml Fix.docCov "CA").getD 0 emptyChunk).metadata.name = "Unnamed" ∧
    ((Indexer.chunk_xml Fix.docCov "CA").getD 0 emptyChunk).metadata.name ≠ "Coverage" ∧
    ((collectTagged Resolver.ruleTags Fix.docCov).getD 0 emptyXml).attr "inheritsFrom" =
      some "Base" ∧
    ((Indexer.chunk_xml Fix.docCov "CA").getD 0 emptyChunk).metadata.inheritsFrom = none := by
  decide

/-! Helper lemmas for the indexer module. -/

/-- A found first index is in range. -/
theorem firstIdxWhere_lt_length {α : Type} (p : α → Bool) :
    ∀ (l : List α) (i : Nat), firstIdxWhere p l = some i → i < l.length := by
  intro l
  induction l with
  | nil => intro i h; simp [firstIdxWhere] at h
  | cons x xs ih =>
      intro i h
      simp only [firstIdxWhere] at h
      by_cases hp : p x
      · rw [if_pos hp] at h
        cases h
        simp
      · rw [if_neg hp] at h
        obtain ⟨j, hj, rfl⟩ := Option.map_eq_some'.mp h
        have := ih j hj
        simp only [List.length_cons]
        omega

/-- No first index exists when no element satisfies the predicate. -/
theorem firstIdxWhere_eq_none {α : Type} (p : α → Bool) :
    ∀ (l : List α), (∀ c ∈ l, p c = false) → firstIdxWhere p l = none := by
  intro l
  induction l with
  | nil => intro _; rfl
  | cons x xs ih =>
      intro h
      simp only [firstIdxWhere]
      rw [if_neg (by simp [h x (List.mem_cons_self x xs)]), ih (fun c hc => h c (List.mem_cons_of_mem x hc))]
      rfl

/-- The found first index satisfies the predicate. -/
theorem firstIdxWhere_pred {α : Type} (p : α → Bool) (d : α) :
    ∀ (l : List α) (i : Nat), firstIdxWhere p l = some i → p (l.getD i d) = true := by
  intro l
  induction l with
  | nil => intro i h; simp [firstIdxWhere] at h
  | cons x xs ih =>
      intro i h
      simp only [firstIdxWhere] at h
      by_cases hp : p x
      · rw [if_pos hp] at h
        cases h
        simpa using hp
      · rw [if_neg hp] at h
        obtain ⟨j, hj, rfl⟩ := Option.map_eq_some'.mp h
        simpa using ih j hj

/-- Indices before the found first index fail the predicate (the scan stops
at the first match). -/
theorem firstIdxWhere_min {α : Type} (p : α → Bool) (d : α) :
    ∀ (l : List α) (i : Nat), firstIdxWhere p l = some i →
      ∀ j < i, p (l.getD j d) = false := by
  intro l
  induction l with
  | nil => intro i h; simp [firstIdxWhere] at h
  | cons x xs ih =>
      intro i h j hj
      simp only [firstIdxWhere] at h
      by_cases hp : p x
      · rw [if_pos hp] at h
        cases h
        omega
      · rw [if_neg hp] at h
        obtain ⟨k, hk, rfl⟩ := Option.map_eq_some'.mp h
        cases j with
        | zero => simpa using hp
        | succ m => simpa using ih k hk m (by omega)

/-- Value of `getD` on a just-set position. -/
theorem getD_set_eq {α : Type} {l : List α} {i : Nat} {a d : α} (h : i < l.length) :
    (l.set i a).getD i d = a := by
  rw [List.getD_eq_getElem?_getD, List.getElem?_set_self h]
  rfl

/-- Value of `getD` through a map at an in-range position. -/
theorem getD_map_of_lt {α β : Type} (f : α → β) (l : List α) (i : Nat) (d : β)
    (h : i < l.length) :
    (l.map f).getD i d = f (l.get ⟨i, h⟩) := by
  rw [List.getD_eq_getElem?_getD, List.getElem?_map, List.getElem?_eq_getElem h]
  rfl

/-- Unfolding of `indexer.run` when at least one chunk was gathered. -/
theorem indexer_run_eq_of_nonempty (embed : String → Vec) (fs : FS)
    (config : List (String × String)) (h : Indexer.gatherChunks fs config ≠ []) :
    Indexer.run embed fs config =
      { fs := { metadata := some (Indexer.gatherChunks fs config),
                vectors := some (((Indexer.gatherChunks fs config).map (·.text)).map embed),
                xmlFiles := fs.xmlFiles },
        embedCalls := [(Indexer.gatherChunks fs config).map (·.text)],
        states := [{ metadata := fs.metadata,
                     vectors := some (((Indexer.gatherChunks fs config).map (·.text)).map embed),
                     xmlFiles := fs.xmlFiles },
                   { metadata := some (Indexer.gatherChunks fs config),
                     vectors := some (((Indexer.gatherChunks fs config).map (·.text)).map embed),
                     xmlFiles := fs.xmlFiles }] } := by
  simp only [Indexer.run]
  rw [if_neg (by simpa [List.isEmpty_iff] using h)]

/-- Unfolding of `indexer.run` when no chunk was gathered: a no-op. -/
theorem indexer_run_eq_of_empty (embed : String → Vec) (fs : FS)
    (config : List (String × String)) (h : Indexer.gatherChunks fs config = []) :
    Indexer.run embed fs config = { fs := fs, embedCalls := [], states := [] } := by
  simp only [Indexer.run]
  rw [if_pos (by simpa [List.isEmpty_iff] using h)]

/-- Unfolding of `re_index_node` on a found chunk. -/
theorem re_index_node_eq_of_found (embed : String → Vec) (fs : FS) (n t : String)
    (cs : List Chunk) (vs : List Vec) (i : Nat)
    (hm : fs.metadata = some cs) (hv : fs.vectors = some vs)
    (hidx : firstIdxWhere (fun c => c.metadata.name == n) cs = some i) :
    Indexer.re_index_node embed fs n t =
      (true,
        { metadata := some (cs.set i
            { cs.getD i emptyChunk with
              text := (cs.getD i emptyChunk).text ++ " | HEALED_INTENT: " ++ t }),
          vectors := some (vs.set i (embed ((cs.getD i emptyChunk).text ++ " | HEALED_INTENT: " ++ t))),
          xmlFiles := fs.xmlFiles }) := by
  have hlt := firstIdxWhere_lt_length _ cs i hidx
  simp only [Indexer.re_index_node, hm, hv, hidx]
  rw [getD_set_eq hlt]

/-- Consequences of the aligned-store equation: equal lengths and
positionwise embedding of the chunk texts. -/
theorem storeInv_unpack (embed : String → Vec) (cs : List Chunk) (vs : List Vec)
    (h : vs = cs.map (fun c => embed c.text)) :
    vs.length = cs.length ∧
    ∀ i (hi : i < cs.length), vs.getD i [] = embed ((cs.get ⟨i, hi⟩).text) := by
  subst h
  refine ⟨List.length_map _ _, ?_⟩
  intro i hi
  exact getD_map_of_lt _ _ _ _ hi

/-- C5: every store written by the builder `run` (when it writes at all)
and every store left by `re_index_node` on a store satisfying the
invariant, satisfies the invariant: the persisted vector list is the
positionwise embedding of the persisted chunk texts, hence the counts are
equal and vector i is the embedding of chunks[i].text.  The embedding
service is modelled as returning one vector per input text in input
order. -/
theorem c5_paired_store_invariant (embed : String → Vec) :
    (∀ (fs : FS) (config : List (String × String)),
      Indexer.gatherChunks fs config ≠ [] →
      ∃ cs vs, (Indexer.run embed fs config).fs.metadata = some cs ∧
        (Indexer.run embed fs config).fs.vectors = some vs ∧
        vs = cs.map (fun c => embed c.text) ∧
        vs.length = cs.length ∧
        ∀ i (hi : i < cs.length), vs.getD i [] = embed ((cs.get ⟨i, hi⟩).text)) ∧
    (∀ (fs : FS) (cs : List Chunk) (vs : List Vec) (n t : String),
      fs.metadata = some cs → fs.vectors = some vs →
      vs = cs.map (fun c => embed c.text) →
      ∀ cs2 vs2,
        (Indexer.re_index_node embed fs n t).2.metadata = some cs2 →
        (Indexer.re_index_node embed fs n t).2.vectors = some vs2 →
        vs2 = cs2.map (fun c => embed c.text) ∧
        vs2.length = cs2.length ∧
        ∀ i (hi : i < cs2.length), vs2.getD i [] = embed ((cs2.get ⟨i, hi⟩).text)) := by
  constructor
  · intro fs config h
    have hmm : ((Indexer.gatherChunks fs config).map (·.text)).map embed =
        (Indexer.gatherChunks fs config).map (fun c => embed c.text) := by
      rw [List.map_map]; rfl
    obtain ⟨h1, h2⟩ := storeInv_unpack embed _ _ hmm
    rw [indexer_run_eq_of_nonempty embed fs config h]
    exact ⟨Indexer.gatherChunks fs config, _, rfl, rfl, hmm, h1, h2⟩
  · intro fs cs vs n t hm hv hinv cs2 vs2 hm2 hv2
    cases hidx : firstIdxWhere (fun c => c.metadata.name == n) cs with
    | none =>
        have hres : Indexer.re_index_node embed fs n t = (false, fs) := by
          simp only [Indexer.re_index_node, hm, hv, hidx]
        rw [hres] at hm2 hv2
        rw [hm] at hm2
        rw [hv] at hv2
        injection hm2 with hm2
        injection hv2 with hv2
        subst hm2; subst hv2
        exact ⟨hinv, storeInv_unpack embed cs vs hinv⟩
    | some i =>
        have hres := re_index_node_eq_of_found embed fs n t cs vs i hm hv hidx
        rw [hres] at hm2 hv2
        injection hm2 with hm2
        injection hv2 with hv2
        subst hm2; subst hv2
        have hset : vs.set i (embed ((cs.getD i emptyChunk).text ++ " | HEALED_INTENT: " ++ t)) =
            (cs.set i
              { cs.getD i emptyChunk with
                text := (cs.getD i emptyChunk).text ++ " | HEALED_INTENT: " ++ t }).map
              (fun c => embed c.text) := by
          rw [List.map_set, ← hinv]
        exact ⟨hset, storeInv_unpack embed _ _ hset⟩

/-- Witness for C5: a concrete build over one manuscript and a concrete
re-index of an aligned one-chunk store. -/
theorem c5_witness :
    (Indexer.gatherChunks Fix.fsRun Fix.configW ≠ [] ∧
      ∃ cs vs, (Indexer.run Fix.embedOne Fix.fsRun Fix.configW).fs.metadata = some cs ∧
        (Indexer.run Fix.embedOne Fix.fsRun Fix.configW).fs.vectors = some vs ∧
        vs = cs.map (fun c => Fix.embedOne c.text) ∧
        vs.length = cs.length ∧
        ∀ i (hi : i < cs.length), vs.getD i [] = Fix.embedOne ((cs.get ⟨i, hi⟩).text)) ∧
    (Fix.fsStore.metadata = some [Fix.chunkChild, Fix.chunkParent] ∧
      Fix.fsStore.vectors = some [[1], [1]] ∧
      ([[1], [1]] : List Vec) = [Fix.chunkChild, Fix.chunkParent].map (fun c => Fix.embedOne c.text) ∧
      ∀ cs2 vs2,
        (Indexer.re_index_node Fix.embedOne Fix.fsStore "Base" "tremor fee").2.metadata = some cs2 →
        (Indexer.re_index_node Fix.embedOne Fix.fsStore "Base" "tremor fee").2.vectors = some vs2 →
        vs2 = cs2.map (fun c => Fix.embedOne c.text) ∧
        vs2.length = cs2.length ∧
        ∀ i (hi : i < cs2.length), vs2.getD i [] = Fix.embedOne ((cs2.get ⟨i, hi⟩).text)) := by
  have hgne : Indexer.gatherChunks Fix.fsRun Fix.configW ≠ [] := by decide
  have hminv : ([[1], [1]] : List Vec) =
      [Fix.chunkChild, Fix.chunkParent].map (fun c => Fix.embedOne c.text) := rfl
  exact ⟨⟨hgne, (c5_paired_store_invariant Fix.embedOne).1 Fix.fsRun Fix.configW hgne⟩,
    rfl, rfl, hminv,
    (c5_paired_store_invariant Fix.embedOne).2 Fix.fsStore [Fix.chunkChild, Fix.chunkParent]
      [[1], [1]] "Base" "tremor fee" rfl rfl hminv⟩

/-- C6: on an existing store, when node_name matches some chunk (at the
first matching index i), `re_index_node` returns true, appends the marked
annotation of the new intent text to that chunk text, overwrites the
vector at index i with the embedding of the modified text, and leaves
every other chunk and every other vector (and the manuscript files)
unchanged; the chunk at i bears node_name and no earlier chunk does. -/
theorem c6_reindex_targets_single_chunk (embed : String → Vec) (fs : FS) (n t : String)
    (cs : List Chunk) (vs : List Vec) (i : Nat)
    (hm : fs.metadata = some cs) (hv : fs.vectors = some vs)
    (hidx : firstIdxWhere (fun c => c.metadata.name == n) cs = some i) :
    (Indexer.re_index_node embed fs n t).1 = true ∧
    (Indexer.re_index_node embed fs n t).2.metadata = some (cs.set i
      { cs.getD i emptyChunk with
        text := (cs.getD i emptyChunk).text ++ " | HEALED_INTENT: " ++ t }) ∧
    (Indexer.re_index_node embed fs n t).2.vectors = some (vs.set i
      (embed ((cs.getD i emptyChunk).text ++ " | HEALED_INTENT: " ++ t))) ∧
    (Indexer.re_index_node embed fs n t).2.xmlFiles = fs.xmlFiles ∧
    (cs.getD i emptyChunk).metadata.name = n ∧
    (∀ j < i, (cs.getD j emptyChunk).metadata.name ≠ n) ∧
    (∀ cs2, (Indexer.re_index_node embed fs n t).2.metadata = some cs2 →
      ∀ j, j ≠ i → cs2[j]? = cs[j]?) ∧
    (∀ vs2, (Indexer.re_index_node embed fs n t).2.vectors = some vs2 →
      ∀ j, j ≠ i → vs2[j]? = vs[j]?) := by
  have hres := re_index_node_eq_of_found embed fs n t cs vs i hm hv hidx
  have hpred := firstIdxWhere_pred (fun c => c.metadata.name == n) emptyChunk cs i hidx
  have hmin := firstIdxWhere_min (fun c => c.metadata.name == n) emptyChunk cs i hidx
  rw [hres]
  refine ⟨rfl, rfl, rfl, rfl, by simpa [beq_iff_eq] using hpred, ?_, ?_, ?_⟩
  · intro j hj
    have := hmin j hj
    simpa [beq_eq_false_iff_ne] using this
  · intro cs2 hcs2 j hj
    injection hcs2 with hcs2
    subst hcs2
    exact List.getElem?_set_ne (Ne.symm hj)
  · intro vs2 hvs2 j hj
    injection hvs2 with hvs2
    subst hvs2
    exact List.getElem?_set_ne (Ne.symm hj)

/-- Witness for C6: re-indexing the second chunk of a concrete two-chunk
store. -/
theorem c6_witness :
    (Fix.fsStore.metadata = some [Fix.chunkChild, Fix.chunkParent] ∧
      Fix.fsStore.vectors = some [[1], [1]] ∧
      firstIdxWhere (fun c => c.metadata.name == "Base") [Fix.chunkChild, Fix.chunkParent] =
        some 1) ∧
    ((Indexer.re_index_node Fix.embedOne Fix.fsStore "Base" "quake fee").1 = true ∧
      (Indexer.re_index_node Fix.embedOne Fix.fsStore "Base" "quake fee").2.metadata =
        some ([Fix.chunkChild, Fix.chunkParent].set 1
          { [Fix.chunkChild, Fix.chunkParent].getD 1 emptyChunk with
            text := ([Fix.chunkChild, Fix.chunkParent].getD 1 emptyChunk).text ++
              " | HEALED_INTENT: " ++ "quake fee" })) := by
  have hidx : firstIdxWhere (fun c => c.metadata.name == "Base")
      [Fix.chunkChild, Fix.chunkParent] = some 1 := by decide
  have h := c6_reindex_targets_single_chunk Fix.embedOne Fix.fsStore "Base" "quake fee"
    [Fix.chunkChild, Fix.chunkParent] [[1], [1]] 1 rfl rfl hidx
  exact ⟨⟨rfl, rfl, hidx⟩, h.1, h.2.1⟩

/-- C7: `re_index_node` returns false and leaves the disk state unchanged
whenever either persisted store artifact is absent or no chunk metadata
name equals node_name. -/
theorem c7_reindex_noop_on_failure (embed : String → Vec) (fs : FS) (n t : String)
    (h : fs.metadata = none ∨ fs.vectors = none ∨
      ∃ cs, fs.metadata = some cs ∧ ∀ c ∈ cs, c.metadata.name ≠ n) :
    Indexer.re_index_node embed fs n t = (false, fs) := by
  rcases h with hm | hv | ⟨cs, hm, hnone⟩
  · simp only [Indexer.re_index_node, hm]
  · cases hm : fs.metadata with
    | none => simp only [Indexer.re_index_node, hm]
    | some cs => simp only [Indexer.re_index_node, hm, hv]
  · have hidx : firstIdxWhere (fun c => c.metadata.name == n) cs = none := by
      apply firstIdxWhere_eq_none
      intro c hc
      simpa [beq_eq_false_iff_ne] using hnone c hc
    cases hv2 : fs.vectors with
    | none => simp only [Indexer.re_index_node, hm, hv2]
    | some vs => simp only [Indexer.re_index_node, hm, hv2, hidx]

/-- Witness for C7: re-indexing against an absent store. -/
theorem c7_witness :
    (Fix.fsNone.metadata = none ∨ Fix.fsNone.vectors = none ∨
      ∃ cs, Fix.fsNone.metadata = some cs ∧ ∀ c ∈ cs, c.metadata.name ≠ "Comp") ∧
    Indexer.re_index_node Fix.embedOne Fix.fsNone "Comp" "new intent" = (false, Fix.fsNone) :=
  ⟨Or.inl rfl,
   c7_reindex_noop_on_failure Fix.embedOne Fix.fsNone "Comp" "new intent" (Or.inl rfl)⟩

/-- C8 (amended): the builder overwrite is not atomic; `run` performs two
sequential in-place writes, vectors first, chunk list second.  After the
run returns the new paired store is fully present, but the single
intermediate persisted state combines the new vector artifact with the
prior chunk artifact, so atomicity holds only for a caller that observes
the store exclusively after `run` returns. -/
theorem c8_sequential_two_write_overwrite (embed : String → Vec) (fs : FS)
    (config : List (String × String)) (h : Indexer.gatherChunks fs config ≠ []) :
    ∃ nc nv,
      nc = Indexer.gatherChunks fs config ∧
      nv = (nc.map (·.text)).map embed ∧
      (Indexer.run embed fs config).fs =
        { metadata := some nc, vectors := some nv, xmlFiles := fs.xmlFiles } ∧
      (Indexer.run embed fs config).states =
        [{ metadata := fs.metadata, vectors := some nv, xmlFiles := fs.xmlFiles },
         { metadata := some nc, vectors := some nv, xmlFiles := fs.xmlFiles }] :=
  ⟨Indexer.gatherChunks fs config, ((Indexer.gatherChunks fs config).map (·.text)).map embed,
    rfl, rfl,
    by rw [indexer_run_eq_of_nonempty embed fs config h],
    by rw [indexer_run_eq_of_nonempty embed fs config h]⟩

/-- Witness for the amended C8 on a concrete rebuild over an existing
store. -/
theorem c8_witness :
    Indexer.gatherChunks Fix.fsOld Fix.configW ≠ [] ∧
    ∃ nc nv,
      nc = Indexer.gatherChunks Fix.fsOld Fix.configW ∧
      nv = (nc.map (·.text)).map Fix.embedOne ∧
      (Indexer.run Fix.embedOne Fix.fsOld Fix.configW).fs =
        { metadata := some nc, vectors := some nv, xmlFiles := Fix.fsOld.xmlFiles } ∧
      (Indexer.run Fix.embedOne Fix.fsOld Fix.configW).states =
        [{ metadata := Fix.fsOld.metadata, vectors := some nv, xmlFiles := Fix.fsOld.xmlFiles },
         { metadata := some nc, vectors := some nv, xmlFiles := Fix.fsOld.xmlFiles }] :=
  ⟨by decide, c8_sequential_two_write_overwrite Fix.embedOne Fix.fsOld Fix.configW (by decide)⟩

/-- Counterexample to C8 as stated: during a concrete rebuild over a
nonempty prior store, the intermediate persisted state (after the vector
write, before the chunk-list write) is neither the old paired store nor
the new one: its chunk list is still the old one while its vector array
is already the new one. -/
theorem c8_counterexample :
    ¬ ∀ s ∈ (Indexer.run Fix.embedOne Fix.fsOld Fix.configW).states,
        (s.metadata = Fix.fsOld.metadata ∧ s.vectors = Fix.fsOld.vectors) ∨
        (s.metadata = (Indexer.run Fix.embedOne Fix.fsOld Fix.configW).fs.metadata ∧
          s.vectors = (Indexer.run Fix.embedOne Fix.fsOld Fix.configW).fs.vectors) := by
  have hne : Indexer.gatherChunks Fix.fsOld Fix.configW ≠ [] := by decide
  have hglen : (Indexer.gatherChunks Fix.fsOld Fix.configW).length = 2 := by decide
  have hrun := indexer_run_eq_of_nonempty Fix.embedOne Fix.fsOld Fix.configW hne
  intro h
  rw [hrun] at h
  have h1 := h { metadata := Fix.fsOld.metadata,
                 vectors := some (((Indexer.gatherChunks Fix.fsOld Fix.configW).map (·.text)).map Fix.embedOne),
                 xmlFiles := Fix.fsOld.xmlFiles } (List.mem_cons_self _ _)
  have hfv : Fix.fsOld.vectors = some [[(0 : ℝ)]] := rfl
  have hfm : Fix.fsOld.metadata = some [Fix.chunkParent] := rfl
  rcases h1 with ⟨_, hveq⟩ | ⟨hmeq, _⟩
  · rw [hfv] at hveq
    have hlen := congrArg List.length (Option.some.inj hveq)
    simp only [List.length_map, hglen] at hlen
    simp at hlen
  · rw [hfm] at hmeq
    have hlen := congrArg List.length (Option.some.inj hmeq)
    simp only [hglen] at hlen
    simp at hlen

/-- C9 (amended): the builder of `src/logic/indexer.py` is a no-op when
extraction yields zero chunks: the disk state is unchanged, the embedding
service receives no call and no write occurs.  The amendment restricts the
claim to this builder: the duplicate builder in `src/logic/resolver.py`
lacks the empty guard (see the counterexample). -/
theorem c9_empty_corpus_noop (embed : String → Vec) (fs : FS)
    (config : List (String × String)) (h : Indexer.gatherChunks fs config = []) :
    Indexer.run embed fs config = { fs := fs, embedCalls := [], states := [] } :=
  indexer_run_eq_of_empty embed fs config h

/-- Witness for the amended C9: a configuration whose only path is absent
from disk. -/
theorem c9_witness :
    Indexer.gatherChunks Fix.fsNone Fix.configMissing = [] ∧
    Indexer.run Fix.embedOne Fix.fsNone Fix.configMissing =
      { fs := Fix.fsNone, embedCalls := [], states := [] } :=
  ⟨by decide, c9_empty_corpus_noop Fix.embedOne Fix.fsNone Fix.configMissing (by decide)⟩

/-- Counterexample to C9 as stated: the builder copy in
`src/logic/resolver.py`, on a configuration yielding zero chunks, still
calls the embedding service (with an empty batch) and still writes the
store (an empty vector artifact over a previously absent one). -/
theorem c9_counterexample :
    Resolver.gatherChunks Fix.expandW Fix.fsNone Fix.configMissing = [] ∧
    (Resolver.run Fix.expandW Fix.embedOne Fix.fsNone Fix.configMissing).embedCalls = [[]] ∧
    (Resolver.run Fix.expandW Fix.embedOne Fix.fsNone Fix.configMissing).fs.vectors = some [] ∧
    Fix.fsNone.vectors = none ∧
    ¬ ((Resolver.run Fix.expandW Fix.embedOne Fix.fsNone Fix.configMissing).embedCalls = [] ∧
       (Resolver.run Fix.expandW Fix.embedOne Fix.fsNone Fix.configMissing).fs = Fix.fsNone) := by
  refine ⟨by decide, rfl, rfl, rfl, ?_⟩
  rintro ⟨h1, _⟩
  have h2 : (Resolver.run Fix.expandW Fix.embedOne Fix.fsNone Fix.configMissing).embedCalls =
      [[]] := rfl
  rw [h2] at h1
  simp at h1

end Aether
